import Mathlib

/-!
Shallow embedding of the timeline indexing and sampling planner of `videin.py`.

Times and durations are modelled as rationals (the Python code uses floats; the
algorithms are pure arithmetic and all comparisons are exact, so ℚ is the
faithful idealisation).  Randomness is modelled by an explicit stream
`g : ℕ → ℚ` of draws together with a running index: Python's
`random.uniform(a, b)` returns `a + (b - a) * random()` with `random()` in
`[0, 1]`, which is `uniform g n a b` below, consuming one draw.  Fallible code
(`create_intervals` can raise `ZeroDivisionError`) returns `Option`.
-/

namespace Videin

/-- Embeds the `VideoFile` dataclass.  `path` is an opaque surrogate for the
filesystem path, `file_timestamp` an integer surrogate for the parsed
`datetime` (only its total order matters).  `timeline_start`/`timeline_end`
default to `0.0` as in the dataclass. -/
structure VideoFile where
  path : ℕ
  filename : String
  file_timestamp : ℤ
  duration : ℚ
  timeline_start : ℚ := 0
  timeline_end : ℚ := 0
deriving DecidableEq

/-- Embeds the `Interval` dataclass; `video_files` defaults to the empty list
(`__post_init__` turns the `None` default into `[]`). -/
structure Interval where
  interval_id : ℕ
  start_time : ℚ
  end_time : ℚ
  video_files : List VideoFile := []
deriving DecidableEq

/-- Embeds the `Sample` dataclass. -/
structure Sample where
  interval_id : ℕ
  timeline_start : ℚ
  source_file : VideoFile
  file_offset : ℚ
  duration : ℚ
deriving DecidableEq

/-- The sort key of `build_timeline_index`: `key=lambda vf: vf.file_timestamp`,
as a Boolean relation for `List.mergeSort` (Python's `sorted` is a stable
mergesort; any two stable sorts by the same key agree, so `mergeSort` is an
exact model). -/
def fileLE (a b : VideoFile) : Bool :=
  a.file_timestamp ≤ b.file_timestamp

/-- The cursor walk of `build_timeline_index`: assign
`timeline_start = cursor`, `timeline_end = cursor + duration`, advance the
cursor, for each file in order. -/
def assignTimeline : ℚ → List VideoFile → List VideoFile
  | _, [] => []
  | cursor, vf :: rest =>
    { vf with timeline_start := cursor, timeline_end := cursor + vf.duration } ::
      assignTimeline (cursor + vf.duration) rest

/-- Embeds `build_timeline_index`: sort by timestamp, then assign contiguous
timeline positions starting from `0.0`. -/
def build_timeline_index (video_files : List VideoFile) : List VideoFile :=
  assignTimeline 0 (video_files.mergeSort fileLE)

/-- Python's `int(x)` on a real number: truncation toward zero. -/
def pyint (x : ℚ) : ℤ :=
  if 0 ≤ x then ⌊x⌋ else ⌈x⌉

/-- Embeds `create_intervals`.  `none` models an uncaught `ZeroDivisionError`:
Python raises on `total_output_duration / interval_duration` when
`interval_duration == 0`, and on `total_video_duration / num_intervals` when
`num_intervals == 0`.  A negative `num_intervals` yields `range(...) == []`,
i.e. `some []`, exactly as in Python. -/
def create_intervals (total_video_duration interval_duration total_output_duration : ℚ) :
    Option (List Interval) :=
  if interval_duration = 0 then none
  else
    let num_intervals : ℤ := pyint (total_output_duration / interval_duration)
    if num_intervals = 0 then none
    else
      let source_interval_duration := total_video_duration / (num_intervals : ℚ)
      some ((List.range num_intervals.toNat).map fun i =>
        { interval_id := i
          start_time := (i : ℚ) * source_interval_duration
          end_time := ((i : ℚ) + 1) * source_interval_duration
          video_files := [] })

/-- The overlap test of `map_videos_to_intervals`:
`vf.timeline_end > interval.start_time and vf.timeline_start < interval.end_time`. -/
def intersects (vf : VideoFile) (interval : Interval) : Bool :=
  interval.start_time < vf.timeline_end && vf.timeline_start < interval.end_time

/-- Embeds `map_videos_to_intervals`.  The Python function mutates each
interval, appending every file that passes the overlap test to its
`video_files` list; here each interval is returned with the appended list. -/
def map_videos_to_intervals (video_files : List VideoFile) (intervals : List Interval) :
    List Interval :=
  intervals.map fun interval =>
    { interval with
        video_files := interval.video_files ++ video_files.filter (intersects · interval) }

/-- Embeds `find_file_at_timeline_position`: linear scan, first file with
`timeline_start <= position < timeline_end` wins, `None` if no file matches. -/
def find_file_at_timeline_position : List VideoFile → ℚ → Option VideoFile
  | [], _ => none
  | vf :: rest, position =>
    if vf.timeline_start ≤ position ∧ position < vf.timeline_end then some vf
    else find_file_at_timeline_position rest position

/-- Python's `random.uniform(a, b)`, reading draw number `n` of the stream `g`:
`a + (b - a) * random()`. -/
def uniform (g : ℕ → ℚ) (n : ℕ) (a b : ℚ) : ℚ :=
  a + (b - a) * g n

/-- The clamped latest permissible sample start computed inside the attempt
loop of `create_sampling_plan`: `max_start = interval.end_time -
sample_duration`, raised to `interval.start_time` when it falls below it. -/
def clamped_max_start (interval : Interval) (sample_duration : ℚ) : ℚ :=
  let max_start := interval.end_time - sample_duration
  if max_start < interval.start_time then interval.start_time else max_start

/-- The inner `for _ in range(max_attempts)` loop of `create_sampling_plan`,
with `fuel` remaining attempts and `n` the index of the next random draw.
Each attempt consumes exactly one draw; the loop stops early on the first
accepted sample and returns the next unused draw index. -/
def sample_attempts (interval : Interval) (video_files : List VideoFile)
    (sample_duration : ℚ) (g : ℕ → ℚ) : ℕ → ℕ → Option Sample × ℕ
  | 0, n => (none, n)
  | fuel + 1, n =>
    let sample_start := uniform g n interval.start_time (clamped_max_start interval sample_duration)
    let sample_end := sample_start + sample_duration
    match find_file_at_timeline_position video_files sample_start with
    | none => sample_attempts interval video_files sample_duration g fuel (n + 1)
    | some source_file =>
      if sample_end ≤ source_file.timeline_end then
        (some { interval_id := interval.interval_id
                timeline_start := sample_start
                source_file := source_file
                file_offset := sample_start - source_file.timeline_start
                duration := sample_duration }, n + 1)
      else sample_attempts interval video_files sample_duration g fuel (n + 1)

/-- `max_attempts = 100` in `create_sampling_plan`. -/
def max_attempts : ℕ := 100

/-- The interval loop of `create_sampling_plan`, threading the draw index.
The second component of the result records, in order, the `interval_id` of
every interval that was skipped with a printed warning (either because its
file list is empty — checked before any attempt — or because all
`max_attempts` attempts were exhausted). -/
def create_sampling_plan_aux (video_files : List VideoFile) (sample_duration : ℚ)
    (g : ℕ → ℚ) : List Interval → ℕ → List Sample × List ℕ
  | [], _ => ([], [])
  | interval :: rest, n =>
    if interval.video_files.isEmpty then
      let r := create_sampling_plan_aux video_files sample_duration g rest n
      (r.1, interval.interval_id :: r.2)
    else
      match sample_attempts interval video_files sample_duration g max_attempts n with
      | (some s, m) =>
        let r := create_sampling_plan_aux video_files sample_duration g rest m
        (s :: r.1, r.2)
      | (none, m) =>
        let r := create_sampling_plan_aux video_files sample_duration g rest m
        (r.1, interval.interval_id :: r.2)

/-- Embeds `create_sampling_plan`: the emitted samples in interval order,
together with the ids of the skipped (warned-about) intervals. -/
def create_sampling_plan (intervals : List Interval) (video_files : List VideoFile)
    (sample_duration : ℚ) (g : ℕ → ℚ) : List Sample × List ℕ :=
  create_sampling_plan_aux video_files sample_duration g intervals 0

/-- Projection of a `VideoFile` to its timeline-independent fields, used to
state stability of the sort. -/
def fileKey (vf : VideoFile) : ℕ × String × ℤ × ℚ :=
  (vf.path, vf.filename, vf.file_timestamp, vf.duration)

/-- Fixture: a ten-second file spanning `[0, 10)` on the timeline. -/
def wF : VideoFile :=
  { path := 0, filename := "a", file_timestamp := 0, duration := 10,
    timeline_start := 0, timeline_end := 10 }

/-- Fixture: a three-second file with a later timestamp and unset timeline
fields. -/
def wF2 : VideoFile :=
  { path := 2, filename := "b", file_timestamp := 7, duration := 3,
    timeline_start := 0, timeline_end := 0 }

/-- Fixture: interval `[0, 10)` holding `wF`. -/
def wI : Interval :=
  { interval_id := 0, start_time := 0, end_time := 10, video_files := [wF] }

/-- Fixture: interval `[0, 10)` with an empty file list. -/
def mI : Interval :=
  { interval_id := 0, start_time := 0, end_time := 10, video_files := [] }

/-- Fixture: the all-zero random stream. -/
def wg : ℕ → ℚ := fun _ => 0

/-- Fixture: a zero-duration file with the empty span `[5, 5)`. -/
def zF : VideoFile :=
  { path := 1, filename := "z", file_timestamp := 0, duration := 0,
    timeline_start := 5, timeline_end := 5 }

/-- Fixture: an interval whose own file list is nonempty while the global
timeline list passed to the planner is empty, so every attempt fails to
locate a file and the interval exhausts its attempts. -/
def xI : Interval :=
  { interval_id := 4, start_time := 0, end_time := 1, video_files := [wF] }

/-- Fixture: an interval with an empty file list and id 3. -/
def eI : Interval :=
  { interval_id := 3, start_time := 0, end_time := 1, video_files := [] }

/-- Soundness of the linear scan: a returned file is in the list and its
half-open span contains the position. -/
theorem find_file_eq_some {video_files : List VideoFile} {position : ℚ} {vf : VideoFile}
    (h : find_file_at_timeline_position video_files position = some vf) :
    vf ∈ video_files ∧ vf.timeline_start ≤ position ∧ position < vf.timeline_end := by
  induction video_files with
  | nil => simp [find_file_at_timeline_position] at h
  | cons a rest ih =>
    rw [find_file_at_timeline_position] at h
    by_cases hc : a.timeline_start ≤ position ∧ position < a.timeline_end
    · rw [if_pos hc] at h
      obtain rfl := Option.some.inj h
      exact ⟨List.mem_cons_self _ _, hc⟩
    · rw [if_neg hc] at h
      obtain ⟨hm, hb⟩ := ih h
      exact ⟨List.mem_cons_of_mem _ hm, hb⟩

/-- A uniform draw with the stream value in `[0, 1]` lands in `[a, b]`. -/
theorem uniform_bounds {g : ℕ → ℚ} {n : ℕ} {a b : ℚ} (hab : a ≤ b)
    (h0 : 0 ≤ g n) (h1 : g n ≤ 1) :
    a ≤ uniform g n a b ∧ uniform g n a b ≤ b := by
  unfold uniform
  constructor
  · nlinarith
  · nlinarith

/-- The clamped latest start is at least the interval start, and at most the
interval end whenever the interval is well formed and the duration nonnegative. -/
theorem clamped_max_start_bounds (interval : Interval) (d : ℚ) :
    interval.start_time ≤ clamped_max_start interval d ∧
      (0 ≤ d → interval.start_time ≤ interval.end_time →
        clamped_max_start interval d ≤ interval.end_time) := by
  unfold clamped_max_start
  dsimp only
  split <;> constructor <;> intros <;> linarith

/-- Soundness of the attempt loop: an accepted sample was produced from some
draw index `k` consumed by this interval, its fields are exactly those built
at acceptance, its source file is the one found by the linear scan, and the
acceptance test held. -/
theorem sample_attempts_some {interval : Interval} {video_files : List VideoFile}
    {d : ℚ} {g : ℕ → ℚ} {fuel n m : ℕ} {s : Sample}
    (h : sample_attempts interval video_files d g fuel n = (some s, m)) :
    ∃ k, n ≤ k ∧ k < n + fuel ∧
      s.timeline_start = uniform g k interval.start_time (clamped_max_start interval d) ∧
      s.interval_id = interval.interval_id ∧
      s.duration = d ∧
      find_file_at_timeline_position video_files s.timeline_start = some s.source_file ∧
      s.file_offset = s.timeline_start - s.source_file.timeline_start ∧
      s.timeline_start + d ≤ s.source_file.timeline_end := by
  induction fuel generalizing n with
  | zero => simp [sample_attempts] at h
  | succ fuel ih =>
    simp only [sample_attempts] at h
    rcases hfind : find_file_at_timeline_position video_files
        (uniform g n interval.start_time (clamped_max_start interval d)) with _ | vf
    · rw [hfind] at h
      dsimp only at h
      obtain ⟨k, hk1, hk2, hrest⟩ := ih h
      exact ⟨k, by omega, by omega, hrest⟩
    · rw [hfind] at h
      dsimp only at h
      by_cases hacc : uniform g n interval.start_time (clamped_max_start interval d) + d ≤
          vf.timeline_end
      · rw [if_pos hacc] at h
        simp only [Prod.mk.injEq, Option.some.injEq] at h
        obtain ⟨hs, hm⟩ := h
        subst hs
        exact ⟨n, le_refl n, by omega, rfl, rfl, rfl, hfind, rfl, hacc⟩
      · rw [if_neg hacc] at h
        obtain ⟨k, hk1, hk2, hrest⟩ := ih h
        exact ⟨k, by omega, by omega, hrest⟩

/-- Every sample in the plan was accepted by the attempt loop of one of the
input intervals. -/
theorem plan_aux_mem {video_files : List VideoFile} {d : ℚ} {g : ℕ → ℚ}
    {intervals : List Interval} {n : ℕ} {s : Sample}
    (h : s ∈ (create_sampling_plan_aux video_files d g intervals n).1) :
    ∃ interval ∈ intervals, ∃ n0 m,
      sample_attempts interval video_files d g max_attempts n0 = (some s, m) := by
  induction intervals generalizing n with
  | nil => simp [create_sampling_plan_aux] at h
  | cons interval rest ih =>
    rw [create_sampling_plan_aux] at h
    by_cases he : interval.video_files.isEmpty
    · rw [if_pos he] at h
      obtain ⟨J, hJ, hw⟩ := ih h
      exact ⟨J, List.mem_cons_of_mem _ hJ, hw⟩
    · rw [if_neg he] at h
      rcases hatt : sample_attempts interval video_files d g max_attempts n with ⟨os, m⟩
      rw [hatt] at h
      cases os with
      | none =>
        obtain ⟨J, hJ, hw⟩ := ih h
        exact ⟨J, List.mem_cons_of_mem _ hJ, hw⟩
      | some sa =>
        rcases List.mem_cons.mp h with rfl | hmem
        · exact ⟨interval, List.mem_cons_self _ _, n, m, hatt⟩
        · obtain ⟨J, hJ, hw⟩ := ih hmem
          exact ⟨J, List.mem_cons_of_mem _ hJ, hw⟩

/-- C1 : every Sample emitted by the planner has `0 ≤ file_offset`,
`file_offset + duration ≤ source_file.duration`, duration equal to the
requested sample duration, and a `timeline_start` within
`[start_time, end_time]` of its owning interval — including the degenerate
clamped case, which needs no separate argument because the clamp keeps the
draw inside the interval. -/
theorem sampling_plan_sample_invariants
    (intervals : List Interval) (video_files : List VideoFile) (d : ℚ) (g : ℕ → ℚ)
    (hg : ∀ n, 0 ≤ g n ∧ g n ≤ 1)
    (hI : ∀ interval ∈ intervals, interval.start_time ≤ interval.end_time)
    (hd : 0 < d)
    (hf : ∀ f ∈ video_files, f.timeline_end = f.timeline_start + f.duration) :
    ∀ s ∈ (create_sampling_plan intervals video_files d g).1,
      0 ≤ s.file_offset ∧
      s.file_offset + s.duration ≤ s.source_file.duration ∧
      s.duration = d ∧
      ∃ interval ∈ intervals, interval.interval_id = s.interval_id ∧
        interval.start_time ≤ s.timeline_start ∧ s.timeline_start ≤ interval.end_time := by
  intro s hs
  obtain ⟨interval, hmem, n0, m, hatt⟩ := plan_aux_mem hs
  obtain ⟨k, hk1, hk2, hts, hid, hdur, hfind, hoff, hacc⟩ := sample_attempts_some hatt
  obtain ⟨hfmem, hlo, hhi⟩ := find_file_eq_some hfind
  have hwf := hf _ hfmem
  obtain ⟨hg0, hg1⟩ := hg k
  have hclamp := clamped_max_start_bounds interval d
  have hub := uniform_bounds hclamp.1 hg0 hg1
  refine ⟨by rw [hoff]; linarith, by rw [hoff, hdur]; linarith, hdur,
    interval, hmem, hid.symm, ?_, ?_⟩
  · rw [hts]; exact hub.1
  · rw [hts]; exact le_trans hub.2 (hclamp.2 hd.le (hI _ hmem))

/-- C2 : an emitted sample never straddles a file boundary: its whole window
lies inside the span of the single source file found by the scan
(`timeline_start + duration ≤ source_file.timeline_end` and
`source_file.timeline_start ≤ timeline_start`), and consequently a file whose
duration is less than the requested sample duration is never chosen as a
source. -/
theorem sampling_plan_single_file
    (intervals : List Interval) (video_files : List VideoFile) (d : ℚ) (g : ℕ → ℚ)
    (hf : ∀ f ∈ video_files, f.timeline_end = f.timeline_start + f.duration) :
    ∀ s ∈ (create_sampling_plan intervals video_files d g).1,
      s.timeline_start + s.duration ≤ s.source_file.timeline_end ∧
      s.source_file.timeline_start ≤ s.timeline_start ∧
      s.source_file ∈ video_files ∧
      d ≤ s.source_file.duration := by
  intro s hs
  obtain ⟨interval, hmem, n0, m, hatt⟩ := plan_aux_mem hs
  obtain ⟨k, hk1, hk2, hts, hid, hdur, hfind, hoff, hacc⟩ := sample_attempts_some hatt
  obtain ⟨hfmem, hlo, hhi⟩ := find_file_eq_some hfind
  have hwf := hf _ hfmem
  exact ⟨by rw [hdur]; exact hacc, hlo, hfmem, by linarith⟩

/-- The attempt loop never advances the draw counter backwards nor by more
than its fuel. -/
theorem sample_attempts_counter (interval : Interval) (video_files : List VideoFile)
    (d : ℚ) (g : ℕ → ℚ) (fuel n : ℕ) :
    n ≤ (sample_attempts interval video_files d g fuel n).2 ∧
      (sample_attempts interval video_files d g fuel n).2 ≤ n + fuel := by
  induction fuel generalizing n with
  | zero => simp [sample_attempts]
  | succ fuel ih =>
    rw [sample_attempts]
    rcases hfind : find_file_at_timeline_position video_files
        (uniform g n interval.start_time (clamped_max_start interval d)) with _ | vf
    · dsimp only
      have := ih (n + 1)
      omega
    · dsimp only
      split
      · dsimp only
        omega
      · have := ih (n + 1)
        omega

/-- C9 : the planner spends at most 100 random draws on an interval, skips an
interval with an empty file list immediately (recording its id, consuming no
draws), and treats an exhausted interval as a normal skip: its id is recorded
and planning continues with the remaining intervals — no error is raised. -/
theorem sampling_plan_skip_and_bound (video_files : List VideoFile) (d : ℚ) (g : ℕ → ℚ)
    (interval : Interval) (rest : List Interval) (n : ℕ) :
    (n ≤ (sample_attempts interval video_files d g max_attempts n).2 ∧
      (sample_attempts interval video_files d g max_attempts n).2 ≤ n + 100) ∧
    (interval.video_files = [] →
      create_sampling_plan_aux video_files d g (interval :: rest) n =
        ((create_sampling_plan_aux video_files d g rest n).1,
          interval.interval_id :: (create_sampling_plan_aux video_files d g rest n).2)) ∧
    (∀ m, interval.video_files ≠ [] →
      sample_attempts interval video_files d g max_attempts n = (none, m) →
      create_sampling_plan_aux video_files d g (interval :: rest) n =
        ((create_sampling_plan_aux video_files d g rest m).1,
          interval.interval_id :: (create_sampling_plan_aux video_files d g rest m).2)) := by
  refine ⟨?_, ?_, ?_⟩
  · have h := sample_attempts_counter interval video_files d g max_attempts n
    simpa [max_attempts] using h
  · intro he
    rw [create_sampling_plan_aux, if_pos (by simp [he])]
  · intro m hne hm
    rw [create_sampling_plan_aux, if_neg (by simp [hne]), hm]

/-- The interval ids of the emitted samples form a sublist of the interval ids
of the input intervals. -/
theorem plan_aux_ids_sublist (video_files : List VideoFile) (d : ℚ) (g : ℕ → ℚ)
    (intervals : List Interval) (n : ℕ) :
    ((create_sampling_plan_aux video_files d g intervals n).1.map Sample.interval_id).Sublist
      (intervals.map Interval.interval_id) := by
  induction intervals generalizing n with
  | nil => simp [create_sampling_plan_aux]
  | cons interval rest ih =>
    rw [create_sampling_plan_aux]
    by_cases he : interval.video_files.isEmpty
    · rw [if_pos he]
      exact (ih n).cons _
    · rw [if_neg he]
      rcases hatt : sample_attempts interval video_files d g max_attempts n with ⟨os, m⟩
      cases os with
      | none =>
        dsimp only
        exact (ih m).cons _
      | some s =>
        obtain ⟨k, hk1, hk2, hts, hid, hrest⟩ := sample_attempts_some hatt
        dsimp only
        rw [List.map_cons, hid]
        exact (ih m).cons₂ _

/-- C8 : when interval ids are strictly increasing (as produced by the
partitioner), the planner emits at most one sample per interval, in
interval-id order; each sample's id is the id of an input interval, and the
sample count never exceeds the interval count. -/
theorem sampling_plan_ids (intervals : List Interval) (video_files : List VideoFile)
    (d : ℚ) (g : ℕ → ℚ)
    (hid : (intervals.map Interval.interval_id).Pairwise (· < ·)) :
    (((create_sampling_plan intervals video_files d g).1.map Sample.interval_id).Sublist
        (intervals.map Interval.interval_id)) ∧
    ((create_sampling_plan intervals video_files d g).1.map Sample.interval_id).Pairwise
        (· < ·) ∧
    (create_sampling_plan intervals video_files d g).1.length ≤ intervals.length ∧
    (∀ s ∈ (create_sampling_plan intervals video_files d g).1,
      ∃ interval ∈ intervals, s.interval_id = interval.interval_id) ∧
    (∀ interval ∈ intervals,
      (create_sampling_plan intervals video_files d g).1.countP
        (fun s => s.interval_id == interval.interval_id) ≤ 1) := by
  have hsub := plan_aux_ids_sublist video_files d g intervals 0
  have hpw : ((create_sampling_plan intervals video_files d g).1.map
      Sample.interval_id).Pairwise (· < ·) := hid.sublist hsub
  refine ⟨hsub, hpw, ?_, ?_, ?_⟩
  · have := hsub.length_le
    simpa using this
  · intro s hs
    have : s.interval_id ∈ intervals.map Interval.interval_id :=
      hsub.subset (List.mem_map_of_mem _ hs)
    obtain ⟨interval, hmem, heq⟩ := List.mem_map.mp this
    exact ⟨interval, hmem, heq.symm⟩
  · intro interval hmem
    have hnd : ((create_sampling_plan intervals video_files d g).1.map
        Sample.interval_id).Nodup := hpw.imp Nat.ne_of_lt
    have hcount := List.nodup_iff_count_le_one.mp hnd interval.interval_id
    rw [List.count_eq_countP, List.countP_map] at hcount
    exact hcount

/-- C6 : after mapping, a file is in an interval's list iff it is one of the
input files and the half-open spans overlap (given that the interval lists
start out empty, as produced by `create_intervals`). -/
theorem map_videos_to_intervals_membership (video_files : List VideoFile)
    (intervals : List Interval) (h : ∀ interval ∈ intervals, interval.video_files = []) :
    ∀ J ∈ map_videos_to_intervals video_files intervals, ∀ f,
      f ∈ J.video_files ↔
        f ∈ video_files ∧ J.start_time < f.timeline_end ∧ f.timeline_start < J.end_time := by
  intro J hJ f
  obtain ⟨interval, hmem, rfl⟩ := List.mem_map.mp hJ
  simp [h interval hmem, List.mem_filter, intersects]

/-- C7 amended: the mapper is not idempotent on its own output — re-running it
on already-mapped intervals appends every intersecting file a second time, so
each interval ends with two copies of its intersection list. -/
theorem map_videos_to_intervals_rerun (video_files : List VideoFile)
    (intervals : List Interval) (h : ∀ interval ∈ intervals, interval.video_files = []) :
    ∀ J ∈ map_videos_to_intervals video_files (map_videos_to_intervals video_files intervals),
      J.video_files =
        video_files.filter (intersects · J) ++ video_files.filter (intersects · J) := by
  intro J hJ
  obtain ⟨J1, hJ1, rfl⟩ := List.mem_map.mp hJ
  obtain ⟨interval, hmem, rfl⟩ := List.mem_map.mp hJ1
  simp [h interval hmem, intersects]

/-- `fileLE` is transitive. -/
theorem fileLE_trans (a b c : VideoFile) (hab : fileLE a b) (hbc : fileLE b c) :
    fileLE a c := by
  simp only [fileLE, decide_eq_true_eq] at *
  omega

/-- `fileLE` is total. -/
theorem fileLE_total (a b : VideoFile) : fileLE a b || fileLE b a := by
  simp only [fileLE, Bool.or_eq_true, decide_eq_true_eq]
  omega

/-- Assigning timeline positions does not change the timeline-independent
fields. -/
theorem assignTimeline_map_fileKey (c : ℚ) (l : List VideoFile) :
    (assignTimeline c l).map fileKey = l.map fileKey := by
  induction l generalizing c with
  | nil => rfl
  | cons a rest ih => simp [assignTimeline, fileKey, ih]

/-- Assigning timeline positions does not change timestamps. -/
theorem assignTimeline_map_timestamp (c : ℚ) (l : List VideoFile) :
    (assignTimeline c l).map VideoFile.file_timestamp = l.map VideoFile.file_timestamp := by
  induction l generalizing c with
  | nil => rfl
  | cons a rest ih => simp [assignTimeline, ih]

/-- Every file of the cursor walk satisfies
`timeline_end = timeline_start + duration`. -/
theorem assignTimeline_wf (c : ℚ) (l : List VideoFile) :
    ∀ f ∈ assignTimeline c l, f.timeline_end = f.timeline_start + f.duration := by
  induction l generalizing c with
  | nil => simp [assignTimeline]
  | cons a rest ih =>
    intro f hf
    rcases List.mem_cons.mp hf with rfl | hmem
    · rfl
    · exact ih _ _ hmem

/-- The head of the cursor walk starts at the cursor. -/
theorem assignTimeline_head (c : ℚ) (l : List VideoFile) :
    ∀ f, (assignTimeline c l).head? = some f → f.timeline_start = c := by
  cases l with
  | nil => intro f hf; simp [assignTimeline] at hf
  | cons a rest =>
    intro f hf
    rw [assignTimeline] at hf
    obtain rfl := Option.some.inj hf
    rfl

/-- The cursor walk produces contiguous spans. -/
theorem assignTimeline_chain (c : ℚ) (l : List VideoFile) :
    (assignTimeline c l).Chain' (fun a b => a.timeline_end = b.timeline_start) := by
  induction l generalizing c with
  | nil => simp [assignTimeline]
  | cons a rest ih =>
    rw [assignTimeline]
    rw [List.chain'_cons']
    refine ⟨?_, ih _⟩
    intro y hy
    have := assignTimeline_head _ _ y (by simpa using hy)
    simp [this]

/-- Stability of the sort: filtering the sorted list by any timestamp value
gives the original discovery-order run of files with that timestamp. -/
theorem mergeSort_filter_timestamp (video_files : List VideoFile) (t : ℤ) :
    (video_files.mergeSort fileLE).filter (fun f => f.file_timestamp = t) =
      video_files.filter (fun f => f.file_timestamp = t) := by
  set p : VideoFile → Bool := fun f => decide (f.file_timestamp = t) with hp
  have hBpw : (video_files.filter p).Pairwise (fun a b => fileLE a b = true) := by
    refine List.pairwise_of_forall_mem_list ?_
    intro a ha b hb
    have ha2 := List.of_mem_filter ha
    have hb2 := List.of_mem_filter hb
    simp only [hp, decide_eq_true_eq] at ha2 hb2
    simp [fileLE, ha2, hb2]
  have hBsub : (video_files.filter p).Sublist (video_files.mergeSort fileLE) :=
    List.sublist_mergeSort fileLE_trans fileLE_total hBpw (List.filter_sublist _)
  have hBeq : (video_files.filter p).filter p = video_files.filter p :=
    List.filter_eq_self.mpr fun a ha => List.of_mem_filter ha
  have hsub2 : (video_files.filter p).Sublist
      ((video_files.mergeSort fileLE).filter p) := by
    have := hBsub.filter p
    rwa [hBeq] at this
  have hperm : ((video_files.mergeSort fileLE).filter p).Perm (video_files.filter p) :=
    (List.mergeSort_perm video_files fileLE).filter p
  exact (hsub2.eq_of_length hperm.length_eq.symm).symm

/-- Filtering by timestamp commutes with the cursor walk up to the
timeline-independent fields. -/
theorem assignTimeline_filter_map (t : ℤ) (c : ℚ) (l : List VideoFile) :
    ((assignTimeline c l).filter (fun f => f.file_timestamp = t)).map fileKey =
      (l.filter (fun f => f.file_timestamp = t)).map fileKey := by
  induction l generalizing c with
  | nil => rfl
  | cons a rest ih =>
    by_cases h : a.file_timestamp = t
    · simp [assignTimeline, List.filter_cons, h, fileKey, ih]
    · simp [assignTimeline, List.filter_cons, h, ih]

/-- C3 : the timeline builder sorts by capture timestamp (stably: the files at
any given timestamp stay in original order), starts the first file at `0`,
gives every file `timeline_end = timeline_start + duration`, and makes
consecutive spans contiguous (no gaps, no overlaps). -/
theorem build_timeline_index_spec (video_files : List VideoFile) :
    (build_timeline_index video_files).Pairwise
        (fun a b => a.file_timestamp ≤ b.file_timestamp) ∧
    (∀ f, (build_timeline_index video_files).head? = some f → f.timeline_start = 0) ∧
    (∀ f ∈ build_timeline_index video_files,
        f.timeline_end = f.timeline_start + f.duration) ∧
    (build_timeline_index video_files).Chain'
        (fun a b => a.timeline_end = b.timeline_start) ∧
    (∀ t : ℤ,
      ((build_timeline_index video_files).filter (fun f => f.file_timestamp = t)).map
          fileKey =
        (video_files.filter (fun f => f.file_timestamp = t)).map fileKey) := by
  refine ⟨?_, ?_, ?_, ?_, ?_⟩
  · have hs := List.sorted_mergeSort fileLE_trans fileLE_total video_files
    have hs2 : ((video_files.mergeSort fileLE).map VideoFile.file_timestamp).Pairwise
        (· ≤ ·) := by
      rw [List.pairwise_map]
      refine hs.imp ?_
      intro a b hab
      simpa [fileLE] using hab
    rw [build_timeline_index]
    have hmap := assignTimeline_map_timestamp 0 (video_files.mergeSort fileLE)
    have : ((assignTimeline 0 (video_files.mergeSort fileLE)).map
        VideoFile.file_timestamp).Pairwise (· ≤ ·) := by rw [hmap]; exact hs2
    rw [List.pairwise_map] at this
    exact this
  · exact assignTimeline_head 0 _
  · exact assignTimeline_wf 0 _
  · exact assignTimeline_chain 0 _
  · intro t
    rw [build_timeline_index, assignTimeline_filter_map, mergeSort_filter_timestamp]

/-- C4 : with positive inputs and a nonzero count, the partitioner returns
exactly `floor(total_output_duration / interval_duration)` intervals, interval
`i` having id `i`, the stated equal-length boundaries, and contiguous spans
covering the timeline. -/
theorem create_intervals_spec
    (total_video_duration interval_duration total_output_duration : ℚ)
    (h1 : 0 < total_video_duration) (h2 : 0 < interval_duration)
    (h3 : 0 < total_output_duration)
    (h4 : ⌊total_output_duration / interval_duration⌋ ≠ 0) :
    ∃ ivs, create_intervals total_video_duration interval_duration total_output_duration
        = some ivs ∧
      ivs.length = (⌊total_output_duration / interval_duration⌋).toNat ∧
      (∀ (i : ℕ) (hi : i < ivs.length),
        ivs[i].interval_id = i ∧
        ivs[i].start_time = (i : ℚ) *
          (total_video_duration / ((⌊total_output_duration / interval_duration⌋ : ℤ) : ℚ)) ∧
        ivs[i].end_time = ((i : ℚ) + 1) *
          (total_video_duration / ((⌊total_output_duration / interval_duration⌋ : ℤ) : ℚ)) ∧
        ivs[i].end_time - ivs[i].start_time =
          total_video_duration / ((⌊total_output_duration / interval_duration⌋ : ℤ) : ℚ)) ∧
      ivs.Chain' (fun a b => a.end_time = b.start_time) := by
  have hq : 0 ≤ total_output_duration / interval_duration := by positivity
  have hpy : pyint (total_output_duration / interval_duration) =
      ⌊total_output_duration / interval_duration⌋ := if_pos hq
  refine ⟨(List.range (⌊total_output_duration / interval_duration⌋).toNat).map fun i =>
      { interval_id := i
        start_time := (i : ℚ) *
          (total_video_duration / ((⌊total_output_duration / interval_duration⌋ : ℤ) : ℚ))
        end_time := ((i : ℚ) + 1) *
          (total_video_duration / ((⌊total_output_duration / interval_duration⌋ : ℤ) : ℚ))
        video_files := [] }, ?_, ?_, ?_, ?_⟩
  · simp only [create_intervals, if_neg h2.ne', hpy, if_neg h4]
  · simp
  · intro i hi
    simp only [List.length_map, List.length_range] at hi
    refine ⟨?_, ?_, ?_, ?_⟩ <;>
      simp [List.getElem_map, List.getElem_range] <;> try ring
  · rw [List.chain'_iff_get]
    intro i hi
    simp only [List.length_map, List.length_range] at hi
    simp [List.get_eq_getElem, List.getElem_map, List.getElem_range]
    try push_cast
    try ring

/-- C5 counterexample: with total timeline duration `-5` (so `≤ 0`), interval
duration `1` and total output duration `10`, the partitioner does not fail —
it returns intervals, refuting the claim that it reports a configuration
error whenever `total_timeline_duration ≤ 0`. -/
theorem create_intervals_no_timeline_check_cex :
    create_intervals (-5) 1 10 ≠ none := by
  rw [create_intervals]
  norm_num [pyint]
  exact Option.some_ne_none _

/-- C5 amended: the partitioner fails exactly when the interval duration is
zero or the computed interval count is zero (both are uncaught
`ZeroDivisionError`s in Python, so the run aborts rather than silently
producing zero intervals); it performs no check on the total timeline
duration. -/
theorem create_intervals_none_iff
    (total_video_duration interval_duration total_output_duration : ℚ) :
    create_intervals total_video_duration interval_duration total_output_duration = none ↔
      (interval_duration = 0 ∨ pyint (total_output_duration / interval_duration) = 0) := by
  rw [create_intervals]
  by_cases h : interval_duration = 0
  · simp [h]
  · simp only [if_neg h]
    by_cases h2 : pyint (total_output_duration / interval_duration) = 0
    · simp [h2]
    · simp [h, h2]

/-- C10 : a zero-duration file (empty span) can be mapped into an interval's
file list, but the timeline lookup never returns a file with an empty span,
so no emitted sample ever has a zero-duration source file. -/
theorem zero_duration_never_sampled :
    ((map_videos_to_intervals [zF] [mI]).map Interval.video_files = [[zF]]) ∧
    (∀ (video_files : List VideoFile) (position : ℚ) (vf : VideoFile),
      find_file_at_timeline_position video_files position = some vf →
      vf.timeline_start < vf.timeline_end) ∧
    (∀ (intervals : List Interval) (video_files : List VideoFile) (d : ℚ) (g : ℕ → ℚ),
      (∀ f ∈ video_files, f.timeline_end = f.timeline_start + f.duration) →
      ∀ s ∈ (create_sampling_plan intervals video_files d g).1,
        0 < s.source_file.duration) := by
  refine ⟨by decide, ?_, ?_⟩
  · intro v p vf h
    obtain ⟨-, h1, h2⟩ := find_file_eq_some h
    exact lt_of_le_of_lt h1 h2
  · intro intervals v d g hf s hs
    obtain ⟨interval, hmem, n0, m, hatt⟩ := plan_aux_mem hs
    obtain ⟨k, hk1, hk2, hts, hid, hdur, hfind, hoff, hacc⟩ := sample_attempts_some hatt
    obtain ⟨hfmem, h1, h2⟩ := find_file_eq_some hfind
    have hwf := hf _ hfmem
    have hlt := lt_of_le_of_lt h1 h2
    linarith

/-- C7 counterexample: running the mapper a second time on the intervals it
already processed changes the assignments (the single file is appended a
second time), refuting idempotence. -/
theorem map_videos_to_intervals_not_idempotent :
    map_videos_to_intervals [wF] (map_videos_to_intervals [wF] [mI]) ≠
      map_videos_to_intervals [wF] [mI] := by decide

/-- If the very first attempt locates a file and passes the acceptance test,
the attempt loop returns the sample built at that draw. -/
theorem sample_attempts_first_success {interval : Interval} {video_files : List VideoFile}
    {d : ℚ} {g : ℕ → ℚ} {fuel n : ℕ} {vf : VideoFile}
    (hfind : find_file_at_timeline_position video_files
        (uniform g n interval.start_time (clamped_max_start interval d)) = some vf)
    (hacc : uniform g n interval.start_time (clamped_max_start interval d) + d ≤
        vf.timeline_end) :
    sample_attempts interval video_files d g (fuel + 1) n =
      (some { interval_id := interval.interval_id
              timeline_start := uniform g n interval.start_time (clamped_max_start interval d)
              source_file := vf
              file_offset := uniform g n interval.start_time (clamped_max_start interval d)
                - vf.timeline_start
              duration := d }, n + 1) := by
  simp only [sample_attempts, hfind, if_pos hacc]

/-- The concrete fixture plan contains exactly one sample. -/
theorem plan_fixture_len : (create_sampling_plan [wI] [wF] 5 wg).1.length = 1 := by
  have hu : uniform wg 0 wI.start_time (clamped_max_start wI 5) = 0 := by
    norm_num [uniform, wg, clamped_max_start, wI]
  have hfind : find_file_at_timeline_position [wF]
      (uniform wg 0 wI.start_time (clamped_max_start wI 5)) = some wF := by
    rw [hu]; decide
  have hacc : uniform wg 0 wI.start_time (clamped_max_start wI 5) + 5 ≤ wF.timeline_end := by
    rw [hu]; norm_num [wF]
  have hatt := @sample_attempts_first_success wI [wF] 5 wg 99 0 wF hfind hacc
  rw [create_sampling_plan, create_sampling_plan_aux, if_neg (by decide),
    show max_attempts = 99 + 1 from rfl, hatt]
  rfl

/-- Witness for C1 at a concrete instance whose plan has one sample. -/
theorem sampling_plan_sample_invariants_witness :
    (∀ n, 0 ≤ wg n ∧ wg n ≤ 1) ∧
    (∀ interval ∈ [wI], interval.start_time ≤ interval.end_time) ∧
    (0 : ℚ) < 5 ∧
    (∀ f ∈ [wF], f.timeline_end = f.timeline_start + f.duration) ∧
    (create_sampling_plan [wI] [wF] 5 wg).1.length = 1 ∧
    (∀ s ∈ (create_sampling_plan [wI] [wF] 5 wg).1,
      0 ≤ s.file_offset ∧
      s.file_offset + s.duration ≤ s.source_file.duration ∧
      s.duration = 5 ∧
      ∃ interval ∈ [wI], interval.interval_id = s.interval_id ∧
        interval.start_time ≤ s.timeline_start ∧ s.timeline_start ≤ interval.end_time) := by
  have hg : ∀ n, 0 ≤ wg n ∧ wg n ≤ 1 := fun n => ⟨by norm_num [wg], by norm_num [wg]⟩
  have hI : ∀ interval ∈ [wI], interval.start_time ≤ interval.end_time := by
    intro i hmem; rw [List.mem_singleton] at hmem; subst hmem; norm_num [wI]
  have hd : (0 : ℚ) < 5 := by norm_num
  have hf : ∀ f ∈ [wF], f.timeline_end = f.timeline_start + f.duration := by
    intro f hmem; rw [List.mem_singleton] at hmem; subst hmem; norm_num [wF]
  exact ⟨hg, hI, hd, hf, plan_fixture_len,
    sampling_plan_sample_invariants [wI] [wF] 5 wg hg hI hd hf⟩

/-- Witness for C2 at the same concrete instance. -/
theorem sampling_plan_single_file_witness :
    (∀ f ∈ [wF], f.timeline_end = f.timeline_start + f.duration) ∧
    (create_sampling_plan [wI] [wF] 5 wg).1.length = 1 ∧
    (∀ s ∈ (create_sampling_plan [wI] [wF] 5 wg).1,
      s.timeline_start + s.duration ≤ s.source_file.timeline_end ∧
      s.source_file.timeline_start ≤ s.timeline_start ∧
      s.source_file ∈ [wF] ∧
      (5 : ℚ) ≤ s.source_file.duration) := by
  have hf : ∀ f ∈ [wF], f.timeline_end = f.timeline_start + f.duration := by
    intro f hmem; rw [List.mem_singleton] at hmem; subst hmem; norm_num [wF]
  exact ⟨hf, plan_fixture_len, sampling_plan_single_file [wI] [wF] 5 wg hf⟩

/-- Witness for C3 on a concrete out-of-order file list. -/
theorem build_timeline_index_spec_witness :
    (build_timeline_index [wF2, wF]).Pairwise
        (fun a b => a.file_timestamp ≤ b.file_timestamp) ∧
    (∀ f, (build_timeline_index [wF2, wF]).head? = some f → f.timeline_start = 0) ∧
    (∀ f ∈ build_timeline_index [wF2, wF],
        f.timeline_end = f.timeline_start + f.duration) ∧
    (build_timeline_index [wF2, wF]).Chain'
        (fun a b => a.timeline_end = b.timeline_start) ∧
    (∀ t : ℤ,
      ((build_timeline_index [wF2, wF]).filter (fun f => f.file_timestamp = t)).map
          fileKey =
        ([wF2, wF].filter (fun f => f.file_timestamp = t)).map fileKey) :=
  build_timeline_index_spec [wF2, wF]

/-- Witness for C4 at `(30, 5, 15)`. -/
theorem create_intervals_spec_witness :
    (0 : ℚ) < 30 ∧ (0 : ℚ) < 5 ∧ (0 : ℚ) < 15 ∧ ⌊(15 : ℚ) / 5⌋ ≠ 0 ∧
    (∃ ivs, create_intervals 30 5 15 = some ivs ∧
      ivs.length = (⌊(15 : ℚ) / 5⌋).toNat ∧
      (∀ (i : ℕ) (hi : i < ivs.length),
        ivs[i].interval_id = i ∧
        ivs[i].start_time = (i : ℚ) * ((30 : ℚ) / ((⌊(15 : ℚ) / 5⌋ : ℤ) : ℚ)) ∧
        ivs[i].end_time = ((i : ℚ) + 1) * ((30 : ℚ) / ((⌊(15 : ℚ) / 5⌋ : ℤ) : ℚ)) ∧
        ivs[i].end_time - ivs[i].start_time = (30 : ℚ) / ((⌊(15 : ℚ) / 5⌋ : ℤ) : ℚ)) ∧
      ivs.Chain' (fun a b => a.end_time = b.start_time)) := by
  have h1 : (0 : ℚ) < 30 := by norm_num
  have h2 : (0 : ℚ) < 5 := by norm_num
  have h3 : (0 : ℚ) < 15 := by norm_num
  have h4 : ⌊(15 : ℚ) / 5⌋ ≠ 0 := by norm_num
  exact ⟨h1, h2, h3, h4, create_intervals_spec 30 5 15 h1 h2 h3 h4⟩

/-- Witness for C6 on a concrete file and interval. -/
theorem map_videos_to_intervals_membership_witness :
    (∀ interval ∈ [mI], interval.video_files = []) ∧
    (∀ J ∈ map_videos_to_intervals [wF] [mI], ∀ f,
      f ∈ J.video_files ↔
        f ∈ [wF] ∧ J.start_time < f.timeline_end ∧ f.timeline_start < J.end_time) := by
  have h : ∀ interval ∈ [mI], interval.video_files = [] := by
    intro i hmem; rw [List.mem_singleton] at hmem; subst hmem; rfl
  exact ⟨h, map_videos_to_intervals_membership [wF] [mI] h⟩

/-- Witness for C7 (amended) on the same concrete instance as the
counterexample. -/
theorem map_videos_to_intervals_rerun_witness :
    (∀ interval ∈ [mI], interval.video_files = []) ∧
    (∀ J ∈ map_videos_to_intervals [wF] (map_videos_to_intervals [wF] [mI]),
      J.video_files =
        [wF].filter (intersects · J) ++ [wF].filter (intersects · J)) := by
  have h : ∀ interval ∈ [mI], interval.video_files = [] := by
    intro i hmem; rw [List.mem_singleton] at hmem; subst hmem; rfl
  exact ⟨h, map_videos_to_intervals_rerun [wF] [mI] h⟩

/-- Witness for C8 at the concrete one-interval instance. -/
theorem sampling_plan_ids_witness :
    (([wI].map Interval.interval_id).Pairwise (· < ·)) ∧
    ((((create_sampling_plan [wI] [wF] 5 wg).1.map Sample.interval_id).Sublist
        ([wI].map Interval.interval_id)) ∧
      ((create_sampling_plan [wI] [wF] 5 wg).1.map Sample.interval_id).Pairwise (· < ·) ∧
      (create_sampling_plan [wI] [wF] 5 wg).1.length ≤ [wI].length ∧
      (∀ s ∈ (create_sampling_plan [wI] [wF] 5 wg).1,
        ∃ interval ∈ [wI], s.interval_id = interval.interval_id) ∧
      (∀ interval ∈ [wI],
        (create_sampling_plan [wI] [wF] 5 wg).1.countP
          (fun s => s.interval_id == interval.interval_id) ≤ 1)) := by
  have hid : ([wI].map Interval.interval_id).Pairwise (· < ·) := by simp
  exact ⟨hid, sampling_plan_ids [wI] [wF] 5 wg hid⟩

/-- Witness for C9: an empty interval is skipped at once, an exhausted
interval (100 failed attempts) is skipped with its id recorded, and the
attempt counter stays within the bound. -/
theorem sampling_plan_skip_and_bound_witness :
    ((sample_attempts xI [] 1 wg max_attempts 0).2 ≤ 0 + 100) ∧
    (create_sampling_plan_aux [] 1 wg (eI :: []) 0 =
      ((create_sampling_plan_aux [] 1 wg [] 0).1,
        eI.interval_id :: (create_sampling_plan_aux [] 1 wg [] 0).2)) ∧
    (create_sampling_plan_aux [] 1 wg (xI :: []) 0 =
      ((create_sampling_plan_aux [] 1 wg [] 100).1,
        xI.interval_id :: (create_sampling_plan_aux [] 1 wg [] 100).2)) := by
  refine ⟨(sampling_plan_skip_and_bound [] 1 wg xI [] 0).1.2,
    (sampling_plan_skip_and_bound [] 1 wg eI [] 0).2.1 rfl,
    (sampling_plan_skip_and_bound [] 1 wg xI [] 0).2.2 100 (by decide) (by decide)⟩

/-- Witness for C10: the lookup result on a concrete list, and the concrete
plan whose single sample must have a positive-duration source. -/
theorem zero_duration_never_sampled_witness :
    (find_file_at_timeline_position [wF] 0 = some wF) ∧
    wF.timeline_start < wF.timeline_end ∧
    (∀ f ∈ [wF], f.timeline_end = f.timeline_start + f.duration) ∧
    (∀ s ∈ (create_sampling_plan [wI] [wF] 5 wg).1, 0 < s.source_file.duration) := by
  have hf : ∀ f ∈ [wF], f.timeline_end = f.timeline_start + f.duration := by
    intro f hmem; rw [List.mem_singleton] at hmem; subst hmem; norm_num [wF]
  exact ⟨by decide, zero_duration_never_sampled.2.1 [wF] 0 wF (by decide), hf,
    zero_duration_never_sampled.2.2 [wI] [wF] 5 wg hf⟩

end Videin
